import Mathlib

/-!
Verification development for the social comment-feed component
(`src/social-comment-box/src/components/comment-feed.tsx`).

The component's state and logic are embedded shallowly:
JavaScript strings become Lean `String` (a list of characters),
JavaScript numbers holding integers become `Int`, timestamps become
milliseconds-since-epoch (`Int`), and the React `useState` triple
(`comments`, `formState`, `isSubmitting`) becomes an explicit
`FeedState` record transformed by pure functions.  The injected
capabilities (`crypto.randomUUID()`, `Date.now()`) become explicit
parameters of the operations that use them.
-/

namespace CommentFeed

/-- One posted message (`type Comment` in the source).  `createdAt` is the
timestamp in milliseconds (the source stores `toISOString()` of that
instant and parses it back with `new Date(iso).getTime()`); `isLiked` is
optional in the source type but every constructed comment sets it. -/
structure Comment where
  id : String
  displayName : String
  username : String
  avatarColor : String
  content : String
  createdAt : Int
  likes : Int
  isLiked : Bool
  replies : Int
deriving DecidableEq

/-- The composer draft (`type FormState` in the source). -/
structure FormState where
  displayName : String
  username : String
  content : String
deriving DecidableEq

def MAX_CHAR_COUNT : Nat := 280

/-- The character class matched by JavaScript `\s` (the ECMAScript
WhiteSpace and LineTerminator productions), used by `trim()` and by the
`/\s+/g` replacement on the handle field. -/
def isJsSpace (c : Char) : Bool :=
  c = ' ' || c = '\t' || c = '\n' || c = '\r' ||
  c = '\x0b' || c = '\x0c' ||
  c.val = 0x00a0 || c.val = 0xfeff || c.val = 0x1680 ||
  (0x2000 ≤ c.val && c.val ≤ 0x200a) ||
  c.val = 0x2028 || c.val = 0x2029 || c.val = 0x202f ||
  c.val = 0x205f || c.val = 0x3000

/-- JavaScript `s.trim()`: drop leading and trailing whitespace. -/
def jsTrim (s : String) : String :=
  String.mk (((s.data.dropWhile isJsSpace).reverse.dropWhile isJsSpace).reverse)

/-- JavaScript `value.replace(/\s+/g, "")`: remove every whitespace
character. -/
def stripSpaces (s : String) : String :=
  String.mk (s.data.filter (fun c => !isJsSpace c))

/-- JavaScript `s.slice(0, n)` for `0 ≤ n`: the first `n` characters. -/
def jsSlice (s : String) (n : Nat) : String :=
  String.mk (s.data.take n)

/-- JavaScript `s.startsWith(pre)`, at the character level (the only use
in the source tests the single ASCII character `"@"`, for which the
code-unit and character readings coincide). -/
def jsStartsWith (s pre : String) : Bool :=
  pre.data.isPrefixOf s.data

/-- JavaScript `s.toLowerCase()`, at the character level; the scanner
only applies it to regex matches, which are `#` plus ASCII word
characters, where it agrees with `Char.toLower`. -/
def jsToLower (s : String) : String :=
  String.mk (s.data.map Char.toLower)

/-- The three seeded comments (`seedComments` in the source), whose
`createdAt` offsets are taken from the module-load instant `now`. -/
def seedComments (now : Int) : List Comment :=
  [ { id := "c1", displayName := "Ava Chen", username := "@avacodes",
      avatarColor := "bg-indigo-500",
      content := "Shipping a small UI polish today ✨ Keeping micro-interactions smooth makes all the difference.",
      createdAt := now - 1000 * 60 * 60 * 2,
      likes := 24, isLiked := false, replies := 5 },
    { id := "c2", displayName := "Daniel Park", username := "@dpark",
      avatarColor := "bg-emerald-500",
      content := "Loving how this community shares feedback constructively. Keep the #buildinpublic energy going!",
      createdAt := now - 1000 * 60 * 25,
      likes := 12, isLiked := false, replies := 2 },
    { id := "c3", displayName := "Sofia Morales", username := "@soficode",
      avatarColor := "bg-rose-500",
      content := "Just wrapped the v2 prototype. Dark mode feels 🔥 — shipping screenshots later today. #design #ui",
      createdAt := now - 1000 * 60 * 6,
      likes := 31, isLiked := false, replies := 9 } ]

def initialForm : FormState :=
  { displayName := "", username := "", content := "" }

/-- The draft field being edited (`keyof FormState`). -/
inductive DraftField where
  | displayName
  | username
  | content
deriving DecidableEq

/-- `handleFieldChange(field, value)` from the source: stores the value,
stripping all whitespace when the field is the handle. -/
def handleFieldChange (prev : FormState) (field : DraftField) (value : String) :
    FormState :=
  match field with
  | .displayName => { prev with displayName := value }
  | .username => { prev with username := stripSpaces value }
  | .content => { prev with content := value }

/-- The edit-field command as wired by the rendering surface: the content
textarea's change handler passes `event.target.value.slice(0, MAX_CHAR_COUNT)`
into `handleFieldChange`, the other two fields pass the raw value. -/
def editField (prev : FormState) (field : DraftField) (value : String) :
    FormState :=
  match field with
  | .content => handleFieldChange prev .content (jsSlice value MAX_CHAR_COUNT)
  | f => handleFieldChange prev f value

/-- `relativeTimeFromNow` from the source, as a function of the render
instant and the comment timestamp (both in milliseconds).  Every division
is `Math.floor` of a nonnegative quantity, hence `Nat` division. -/
def relativeTimeFromNow (now createdAt : Int) : String :=
  if now - createdAt < 60000 then "just now"
  else if (now - createdAt).toNat / 60000 < 60 then
    toString ((now - createdAt).toNat / 60000) ++ "m"
  else if (now - createdAt).toNat / 60000 / 60 < 24 then
    toString ((now - createdAt).toNat / 60000 / 60) ++ "h"
  else if (now - createdAt).toNat / 60000 / 60 / 24 < 7 then
    toString ((now - createdAt).toNat / 60000 / 60 / 24) ++ "d"
  else if (now - createdAt).toNat / 60000 / 60 / 24 / 7 < 5 then
    toString ((now - createdAt).toNat / 60000 / 60 / 24 / 7) ++ "w"
  else if (now - createdAt).toNat / 60000 / 60 / 24 / 30 < 12 then
    toString ((now - createdAt).toNat / 60000 / 60 / 24 / 30) ++ "mo"
  else
    toString ((now - createdAt).toNat / 60000 / 60 / 24 / 365) ++ "y"

/-- The relative-label function exactly as the claim states it: thresholds
on the elapsed time `< 60s`, `< 60min`, `< 24h`, `< 7d`, `< 35d`, `< 365d`,
with floors of minutes, hours, days, days/7, days/30 and days/365. -/
def relativeLabelClaimed (now createdAt : Int) : String :=
  if now - createdAt < 60000 then "just now"
  else if now - createdAt < 3600000 then
    toString ((now - createdAt).toNat / 60000) ++ "m"
  else if now - createdAt < 86400000 then
    toString ((now - createdAt).toNat / 3600000) ++ "h"
  else if now - createdAt < 604800000 then
    toString ((now - createdAt).toNat / 86400000) ++ "d"
  else if now - createdAt < 3024000000 then
    toString ((now - createdAt).toNat / 86400000 / 7) ++ "w"
  else if now - createdAt < 31536000000 then
    toString ((now - createdAt).toNat / 86400000 / 30) ++ "mo"
  else
    toString ((now - createdAt).toNat / 86400000 / 365) ++ "y"

/-- The relative-label function with the months threshold the code
actually uses: the `"{mo}mo"` branch applies while `floor(days/30) < 12`,
that is for elapsed time `< 360d`, not `< 365d`. -/
def relativeLabelAmended (now createdAt : Int) : String :=
  if now - createdAt < 60000 then "just now"
  else if now - createdAt < 3600000 then
    toString ((now - createdAt).toNat / 60000) ++ "m"
  else if now - createdAt < 86400000 then
    toString ((now - createdAt).toNat / 3600000) ++ "h"
  else if now - createdAt < 604800000 then
    toString ((now - createdAt).toNat / 86400000) ++ "d"
  else if now - createdAt < 3024000000 then
    toString ((now - createdAt).toNat / 86400000 / 7) ++ "w"
  else if now - createdAt < 31104000000 then
    toString ((now - createdAt).toNat / 86400000 / 30) ++ "mo"
  else
    toString ((now - createdAt).toNat / 86400000 / 365) ++ "y"

/-- A character the hashtag regular expression `/#[a-z0-9_]+/gi` accepts
after the `#`: ASCII letter (either case), ASCII digit, or underscore. -/
def isWordChar (c : Char) : Bool :=
  c.isLower || c.isUpper || c.isDigit || c = '_'

/-- One character step of the global scan
`content.match(/#[a-z0-9_]+/gi)`.  The state holds, reversed, the word
characters accumulated since the last `#` (`some w`), or `none` outside
any candidate match.  A maximal nonempty run `#w` is emitted when the
run ends (at a non-word character or at the end of the text), and the
ending character is rescanned, exactly as the regex engine resumes at
the end of a match (or one past a failed `#`). -/
def scanAux : Option (List Char) → List Char → List String
  | none, [] => []
  | some w, [] => if w.isEmpty then [] else [String.mk ('#' :: w.reverse)]
  | none, c :: rest =>
      if c = '#' then scanAux (some []) rest else scanAux none rest
  | some w, c :: rest =>
      if isWordChar c then scanAux (some (c :: w)) rest
      else if w.isEmpty then
        if c = '#' then scanAux (some []) rest else scanAux none rest
      else
        String.mk ('#' :: w.reverse) ::
          (if c = '#' then scanAux (some []) rest else scanAux none rest)

/-- The list of regex matches of `/#[a-z0-9_]+/gi` in a text, in scan
order. -/
def scanTags (content : List Char) : List String :=
  scanAux none content

/-- `counts.set(lowered, (counts.get(lowered) ?? 0) + 1)` on a JavaScript
`Map` viewed as an insertion-ordered association list with unique keys:
increment the existing entry in place, or append a fresh entry with
count 1. -/
def bump : List (String × Nat) → String → List (String × Nat)
  | [], k => [(k, 1)]
  | e :: rest, k =>
    if e.1 = k then (k, e.2 + 1) :: rest else e :: bump rest k

/-- The stable descending-by-count sort performed by
`.sort((a, b) => b[1] - a[1])` (ECMAScript `Array.prototype.sort` is
stable): insertion sort that keeps an earlier element before any
equal-count later element. -/
def insertDesc (x : String × Nat) : List (String × Nat) → List (String × Nat)
  | [] => [x]
  | y :: l => if y.2 ≤ x.2 then x :: y :: l else y :: insertDesc x l

def sortByCountDesc : List (String × Nat) → List (String × Nat)
  | [] => []
  | x :: l => insertDesc x (sortByCountDesc l)

/-- `extractHashtags` from the source: fold every comment's matches into
the count map (lowercasing each match), then sort the entries by count
descending (stable) and keep the first four. -/
def extractHashtags (comments : List Comment) : List (String × Nat) :=
  (sortByCountDesc
    (comments.foldl
      (fun acc c => (scanTags c.content.data).foldl
        (fun m t => bump m (jsToLower t)) acc)
      [])).take 4

/-- The flattened scan order of all (lowercased) hashtag occurrences
across the comment sequence. -/
def allTagsLower (comments : List Comment) : List String :=
  comments.flatMap (fun c => (scanTags c.content.data).map jsToLower)

/-- The distinct values of a list in first-encounter order. -/
def firstSeen : List String → List String
  | [] => []
  | a :: l => a :: firstSeen (l.filter (fun b => b ≠ a))
termination_by l => l.length
decreasing_by
  have h := List.length_filter_le (fun b => b ≠ a) l
  simp at h ⊢
  omega

/-- The spec-side tally: each distinct tag in first-encounter order,
paired with its total number of occurrences. -/
def tallySpec (ms : List String) : List (String × Nat) :=
  (firstSeen ms).map (fun t => (t, ms.count t))

/-- `extractTrendingTags` as the claim describes it: count every
occurrence across all comments, keep distinct tags in first-encounter
order, stable-sort by count descending, truncate to four. -/
def extractTrendingTagsSpec (comments : List Comment) : List (String × Nat) :=
  (sortByCountDesc (tallySpec (allTagsLower comments))).take 4

/-- The full component state: the three `useState` cells of `CommentFeed`. -/
structure FeedState where
  comments : List Comment
  formState : FormState
  isSubmitting : Bool
deriving DecidableEq

/-- `handleSubmit` from the source.  The fresh id and the current instant
are injected capabilities (`crypto.randomUUID()`, `new Date()`).  The
guards mirror the falsy checks on the trimmed fields; on success the new
comment is prepended, the draft reset, and the submitting flag raised
(its later timer reset is a separate event). -/
def handleSubmit (s : FeedState) (newId : String) (now : Int) : FeedState :=
  if jsTrim s.formState.displayName = "" ∨ jsTrim s.formState.username = "" then
    s
  else if jsTrim s.formState.content = "" then
    s
  else
    let normalizedHandle :=
      if jsStartsWith s.formState.username ("@") then s.formState.username
      else "@" ++ s.formState.username
    let newComment : Comment :=
      { id := newId,
        displayName := jsTrim s.formState.displayName,
        username := normalizedHandle,
        avatarColor := "bg-sky-500",
        content := jsTrim s.formState.content,
        createdAt := now,
        likes := 0, isLiked := false, replies := 0 }
    { comments := newComment :: s.comments,
      formState := initialForm,
      isSubmitting := true }

/-- The mapper inside `toggleLike`: an unmatched comment is returned as
is; the matched one flips `isLiked` and moves `likes` by `+1` or `-1`. -/
def toggleOne (commentId : String) (comment : Comment) : Comment :=
  if comment.id ≠ commentId then comment
  else
    let nextLiked := !comment.isLiked
    { comment with
      isLiked := nextLiked,
      likes := comment.likes + (if nextLiked then 1 else -1) }

/-- `toggleLike(commentId)` from the source: map the flip over the
sequence. -/
def toggleLike (comments : List Comment) (commentId : String) : List Comment :=
  comments.map (toggleOne commentId)

/-- `interactionsToday` from the source: sum of `likes + replies` over
the sequence. -/
def interactionsToday (comments : List Comment) : Int :=
  comments.foldl (fun total comment => total + comment.likes + comment.replies) 0

/-- The inbound commands of the component, with injected capabilities as
parameters. -/
inductive Cmd where
  | edit (field : DraftField) (value : String)
  | submit (newId : String) (now : Int)
  | toggle (commentId : String)

/-- One synchronous command dispatch. -/
def step (s : FeedState) : Cmd → FeedState
  | .edit field value => { s with formState := editField s.formState field value }
  | .submit newId now => handleSubmit s newId now
  | .toggle commentId => { s with comments := toggleLike s.comments commentId }

/-- The initial state: the seed comments, an empty draft, not submitting. -/
def initState (now : Int) : FeedState :=
  { comments := seedComments now, formState := initialForm, isSubmitting := false }

/-- Run a command sequence from a state. -/
def run (s : FeedState) (cmds : List Cmd) : FeedState :=
  cmds.foldl step s

/-- The like-count invariant: every comment has a nonnegative count, and
a liked comment has a positive one (so unliking can never underflow). -/
def LikesInv (comments : List Comment) : Prop :=
  ∀ c ∈ comments, 0 ≤ c.likes ∧ (c.isLiked = true → 1 ≤ c.likes)

/-- Two comments whose contents carry `#Design`, `#design` and `#UI` in
that scan order, once each — the concrete input named by the trending-tag
claim. -/
def exampleComments : List Comment :=
  [ { id := "e1", displayName := "A", username := "@a",
      avatarColor := "bg-sky-500", content := "Love this #Design",
      createdAt := 0, likes := 0, isLiked := false, replies := 0 },
    { id := "e2", displayName := "B", username := "@b",
      avatarColor := "bg-sky-500", content := "more #design and #UI",
      createdAt := 0, likes := 0, isLiked := false, replies := 0 } ]

/-- A concrete state with an empty feed and a valid draft, used to
instantiate the submit theorems. -/
def sampleDraftState : FeedState :=
  { comments := [],
    formState := { displayName := "Ann", username := "ann", content := "hi" },
    isSubmitting := false }

/-- C1: after `editField("content", s)` the stored draft content has at
most 280 characters, for any prior draft and any input string: the
truncation happens at edit time. -/
theorem c1_editField_caps_content (prev : FormState) (value : String) :
    ((editField prev .content value).content).length ≤ 280 := by
  show (value.data.take MAX_CHAR_COUNT).length ≤ 280
  simp [List.length_take, MAX_CHAR_COUNT]

/-- C2 counterexample: at an elapsed time of exactly 360 days — which is
less than the claimed 365-day bound for the `"{mo}mo"` branch — the code
returns `"0y"`, not the `"12mo"` the claim requires. -/
theorem c2_relativeLabel_counterexample :
    relativeTimeFromNow 31104000000 0 = "0y" ∧
    relativeLabelClaimed 31104000000 0 = "12mo" ∧
    relativeTimeFromNow 31104000000 0 ≠ relativeLabelClaimed 31104000000 0 := by
  refine ⟨by decide, by decide, by decide⟩

/-- C2 amended: `relativeTimeFromNow` agrees everywhere with the claimed
table once the `"{mo}mo"` threshold is tightened from `< 365d` to
`< 360d` (the code tests `floor(days/30) < 12`); the claim's boundary
samples — 59 s, 60 s, 90 min, 8 d — all hold. -/
theorem c2_relativeLabel_amended (now createdAt : Int) :
    relativeTimeFromNow now createdAt = relativeLabelAmended now createdAt ∧
    relativeTimeFromNow 59000 0 = "just now" ∧
    relativeTimeFromNow 60000 0 = "1m" ∧
    relativeTimeFromNow 5400000 0 = "1h" ∧
    relativeTimeFromNow 691200000 0 = "1w" := by
  refine ⟨?_, by decide, by decide, by decide, by decide⟩
  by_cases h0 : now - createdAt < 60000
  · simp [relativeTimeFromNow, relativeLabelAmended, h0]
  · obtain ⟨n, hn⟩ : ∃ n : Nat, now - createdAt = (n : Int) :=
      ⟨(now - createdAt).toNat, (Int.toNat_of_nonneg (by omega)).symm⟩
    simp only [relativeTimeFromNow, relativeLabelAmended, hn, Int.toNat_natCast]
    split_ifs <;>
      first
        | rfl
        | omega
        | (congr 1 <;> first | rfl | omega | (congr 1 <;> omega))

/-- The flip applied twice gives back the original comment. -/
theorem toggleOne_involution (commentId : String) (c : Comment) :
    toggleOne commentId (toggleOne commentId c) = c := by
  obtain ⟨i, dn, un, av, co, ca, lk, il, rp⟩ := c
  by_cases h : i = commentId
  · cases il <;> simp [toggleOne, h]
  · simp [toggleOne, h]

/-- C6: `toggleLike` applied twice with the same id restores the comment
sequence exactly — in particular every comment's `likes` and `isLiked`
return to their pre-toggle values. -/
theorem c6_toggleLike_involution (comments : List Comment) (commentId : String) :
    toggleLike (toggleLike comments commentId) commentId = comments := by
  induction comments with
  | nil => rfl
  | cons c tl ih =>
    simp only [toggleLike, List.map_map] at ih ⊢
    simp only [List.map_cons, Function.comp_apply, toggleOne_involution, ih]

/-- The fold in `interactionsToday` is the sum of `likes + replies`. -/
theorem interactionsToday_eq_sum (comments : List Comment) :
    interactionsToday comments
      = (comments.map (fun c => c.likes + c.replies)).sum := by
  have aux : ∀ (l : List Comment) (a : Int),
      l.foldl (fun total c => total + c.likes + c.replies) a
        = a + (l.map (fun c => c.likes + c.replies)).sum := by
    intro l
    induction l with
    | nil => intro a; simp
    | cons c tl ih => intro a; simp [ih]; ring
  simpa [interactionsToday] using aux comments 0

/-- C8: `interactionsToday` sums `likes + replies` over the sequence; on
the seeds it is 83, after liking the first seed 84, and after unliking
it again 83. -/
theorem c8_totalInteractions (now : Int) (comments : List Comment) :
    interactionsToday comments
      = (comments.map (fun c => c.likes + c.replies)).sum ∧
    interactionsToday (seedComments now) = 83 ∧
    interactionsToday (toggleLike (seedComments now) "c1") = 84 ∧
    interactionsToday (toggleLike (toggleLike (seedComments now) "c1") "c1")
      = 83 :=
  ⟨interactionsToday_eq_sum comments, rfl, rfl, rfl⟩

/-- C9: toggling an id that no comment carries leaves the sequence
unchanged — same elements, same order, same length — and raises no
error. -/
theorem c9_toggleLike_unknown_noop (comments : List Comment)
    (commentId : String) (h : ∀ c ∈ comments, c.id ≠ commentId) :
    toggleLike comments commentId = comments := by
  induction comments with
  | nil => rfl
  | cons c tl ih =>
    have hc : toggleOne commentId c = c := by
      simp [toggleOne, h c (List.mem_cons_self c tl)]
    have htl := ih (fun x hx => h x (List.mem_cons_of_mem c hx))
    simp only [toggleLike, List.map_cons, hc]
    simp only [toggleLike] at htl
    rw [htl]

/-- C9 witness: toggling the unknown id `"zzz"` on the seed comments is a
no-op. -/
theorem c9_toggleLike_unknown_noop_witness :
    toggleLike (seedComments 0) "zzz" = seedComments 0 :=
  c9_toggleLike_unknown_noop (seedComments 0) "zzz" (by decide)

/-- A handle prefixed with `@` starts with `@`. -/
theorem jsStartsWith_at_append (u : String) :
    jsStartsWith ("@" ++ u) ("@") = true := by
  simp [jsStartsWith, List.isPrefixOf]

/-- C3: on a draft whose three fields trim to non-empty strings, `submit`
prepends exactly one comment built from the trimmed draft — handle
normalized to start with `@`, zero likes and replies, not liked — and
resets the draft. -/
theorem c3_submit_valid (s : FeedState) (newId : String) (now : Int)
    (h1 : jsTrim s.formState.displayName ≠ "")
    (h2 : jsTrim s.formState.username ≠ "")
    (h3 : jsTrim s.formState.content ≠ "") :
    ∃ c : Comment,
      (handleSubmit s newId now).comments = c :: s.comments ∧
      (handleSubmit s newId now).comments.length = s.comments.length + 1 ∧
      jsStartsWith c.username ("@") = true ∧
      c.username = (if jsStartsWith s.formState.username ("@")
        then s.formState.username else "@" ++ s.formState.username) ∧
      c.displayName = jsTrim s.formState.displayName ∧
      c.content = jsTrim s.formState.content ∧
      c.likes = 0 ∧ c.isLiked = false ∧ c.replies = 0 ∧
      (handleSubmit s newId now).formState = initialForm := by
  have hguard :
      ¬(jsTrim s.formState.displayName = "" ∨ jsTrim s.formState.username = "") := by
    tauto
  unfold handleSubmit
  rw [if_neg hguard, if_neg h3]
  refine ⟨_, rfl, rfl, ?_, rfl, rfl, rfl, rfl, rfl, rfl, rfl⟩
  by_cases hu : jsStartsWith s.formState.username ("@")
  · simpa [hu] using hu
  · simpa [hu] using jsStartsWith_at_append s.formState.username

/-- C3 witness: submitting the concrete valid draft
`("Ann", "ann", "hi")` on the empty feed. -/
theorem c3_submit_valid_witness :
    ∃ c : Comment,
      (handleSubmit sampleDraftState ("id1") 5).comments
        = c :: sampleDraftState.comments ∧
      (handleSubmit sampleDraftState ("id1") 5).comments.length
        = sampleDraftState.comments.length + 1 ∧
      jsStartsWith c.username ("@") = true ∧
      c.username = (if jsStartsWith sampleDraftState.formState.username ("@")
        then sampleDraftState.formState.username
        else "@" ++ sampleDraftState.formState.username) ∧
      c.displayName = jsTrim sampleDraftState.formState.displayName ∧
      c.content = jsTrim sampleDraftState.formState.content ∧
      c.likes = 0 ∧ c.isLiked = false ∧ c.replies = 0 ∧
      (handleSubmit sampleDraftState ("id1") 5).formState = initialForm :=
  c3_submit_valid sampleDraftState ("id1") 5 (by decide) (by decide) (by decide)

/-- C4: on a draft where the content, display name or handle trims to
the empty string, `submit` is a silent no-op: the whole state — comment
sequence included — is returned unchanged. -/
theorem c4_submit_invalid_noop (s : FeedState) (newId : String) (now : Int)
    (h : jsTrim s.formState.content = "" ∨ jsTrim s.formState.displayName = ""
      ∨ jsTrim s.formState.username = "") :
    handleSubmit s newId now = s := by
  unfold handleSubmit
  by_cases h1 : jsTrim s.formState.displayName = "" ∨ jsTrim s.formState.username = ""
  · rw [if_pos h1]
  · rw [if_neg h1, if_pos (show jsTrim s.formState.content = "" by tauto)]

/-- C4 witness: submitting the initial (all-empty) draft changes
nothing. -/
theorem c4_submit_invalid_noop_witness :
    handleSubmit (initState 0) ("id1") 5 = initState 0 :=
  c4_submit_invalid_noop (initState 0) ("id1") 5 (Or.inl (by decide))

/-- Element-wise frame relation for `toggleLike`: all fields other than
`likes` and `isLiked` are preserved, and an unmatched comment is
untouched. -/
theorem toggleLike_frame (comments : List Comment) (commentId : String) :
    List.Forall₂
      (fun c c' =>
        c'.id = c.id ∧ c'.displayName = c.displayName ∧
        c'.username = c.username ∧ c'.avatarColor = c.avatarColor ∧
        c'.content = c.content ∧ c'.createdAt = c.createdAt ∧
        c'.replies = c.replies ∧ (c.id ≠ commentId → c' = c))
      comments (toggleLike comments commentId) := by
  induction comments with
  | nil => simp [toggleLike]
  | cons c tl ih =>
    simp only [toggleLike, List.map_cons]
    refine List.Forall₂.cons ?_ ih
    by_cases h : c.id = commentId
    · simp [toggleOne, h]
    · simp [toggleOne, h]

/-- C10: `toggleLike` changes at most the `likes` and `isLiked` fields
of the matching comment: every other field of every comment, the
sequence's length and order, the draft and the submitting flag are all
unchanged. -/
theorem c10_toggleLike_frame (s : FeedState) (commentId : String) :
    (step s (Cmd.toggle commentId)).formState = s.formState ∧
    (step s (Cmd.toggle commentId)).isSubmitting = s.isSubmitting ∧
    (step s (Cmd.toggle commentId)).comments.length = s.comments.length ∧
    List.Forall₂
      (fun c c' =>
        c'.id = c.id ∧ c'.displayName = c.displayName ∧
        c'.username = c.username ∧ c'.avatarColor = c.avatarColor ∧
        c'.content = c.content ∧ c'.createdAt = c.createdAt ∧
        c'.replies = c.replies ∧ (c.id ≠ commentId → c' = c))
      s.comments (step s (Cmd.toggle commentId)).comments :=
  ⟨rfl, rfl, by simp [step, toggleLike], toggleLike_frame s.comments commentId⟩

/-- The seed comments satisfy the like-count invariant. -/
theorem likesInv_seed (now : Int) : LikesInv (seedComments now) := by
  intro c hc
  simp [seedComments] at hc
  rcases hc with h | h | h <;> subst h <;> exact ⟨by norm_num, by simp⟩

/-- `toggleLike` preserves the like-count invariant. -/
theorem likesInv_toggle (comments : List Comment) (commentId : String)
    (h : LikesInv comments) : LikesInv (toggleLike comments commentId) := by
  intro c hc
  simp only [toggleLike, List.mem_map] at hc
  obtain ⟨a, ha, rfl⟩ := hc
  obtain ⟨h0, h1⟩ := h a ha
  by_cases hid : a.id = commentId
  · cases hil : a.isLiked
    · refine ⟨?_, fun _ => ?_⟩ <;> simp [toggleOne, hid, hil] <;> omega
    · refine ⟨?_, fun hl => ?_⟩ <;> simp [toggleOne, hid, hil] at *
      · omega
  · simpa [toggleOne, hid] using ⟨h0, h1⟩

/-- Every command preserves the like-count invariant. -/
theorem likesInv_step (s : FeedState) (cmd : Cmd) (h : LikesInv s.comments) :
    LikesInv (step s cmd).comments := by
  cases cmd with
  | edit field value => exact h
  | toggle commentId => exact likesInv_toggle s.comments commentId h
  | submit newId now =>
    show LikesInv (handleSubmit s newId now).comments
    unfold handleSubmit
    by_cases h1 : jsTrim s.formState.displayName = "" ∨ jsTrim s.formState.username = ""
    · rw [if_pos h1]; exact h
    · rw [if_neg h1]
      by_cases h2 : jsTrim s.formState.content = ""
      · rw [if_pos h2]; exact h
      · rw [if_neg h2]
        intro c hc
        rcases List.mem_cons.mp hc with rfl | hcm
        · exact ⟨le_refl 0, fun hl => by simp at hl⟩
        · exact h c hcm

/-- Running any command sequence preserves the like-count invariant. -/
theorem likesInv_run (cmds : List Cmd) (s : FeedState) (h : LikesInv s.comments) :
    LikesInv (run s cmds).comments := by
  induction cmds generalizing s with
  | nil => exact h
  | cons cmd tl ih => exact ih (step s cmd) (likesInv_step s cmd h)

/-- C7: in every state reachable from the initial state by `editField`,
`submit` and `toggleLike` commands, every comment's like count is
nonnegative. -/
theorem c7_likes_nonneg (now : Int) (cmds : List Cmd) (c : Comment)
    (hc : c ∈ (run (initState now) cmds).comments) : 0 ≤ c.likes :=
  ((likesInv_run cmds (initState now) (likesInv_seed now)) c hc).1

/-- C7 witness: the second seed comment of the initial state has a
nonnegative like count. -/
theorem c7_likes_nonneg_witness :
    0 ≤ ({ id := "c2", displayName := "Daniel Park", username := "@dpark",
           avatarColor := "bg-emerald-500",
           content := "Loving how this community shares feedback constructively. Keep the #buildinpublic energy going!",
           createdAt := 0 - 1000 * 60 * 25,
           likes := 12, isLiked := false, replies := 2 } : Comment).likes :=
  c7_likes_nonneg 0 [] _ (by decide)

/-- The cons equation of `firstSeen`, with the filter predicate written
the way the recursor presents it. -/
theorem firstSeen_cons (x : String) (l : List String) :
    firstSeen (x :: l)
      = x :: firstSeen (l.filter (fun b => decide (b ≠ x))) := by
  rw [firstSeen]

/-- Membership in `firstSeen` is membership in the list. -/
theorem mem_firstSeen (a : String) (l : List String) :
    a ∈ firstSeen l ↔ a ∈ l := by
  induction l using firstSeen.induct with
  | case1 => simp [firstSeen]
  | case2 x tl ih =>
    rw [firstSeen_cons]
    simp only [List.mem_cons, ih, List.mem_filter, decide_eq_true_eq]
    by_cases hax : a = x <;> simp [hax]

/-- `firstSeen` has no duplicates. -/
theorem nodup_firstSeen (l : List String) : (firstSeen l).Nodup := by
  induction l using firstSeen.induct with
  | case1 => simp [firstSeen]
  | case2 x tl ih =>
    rw [firstSeen_cons]
    refine List.nodup_cons.mpr ⟨?_, ih⟩
    rw [mem_firstSeen]
    simp [List.mem_filter]

/-- Appending one element extends `firstSeen` exactly when it is new. -/
theorem firstSeen_append_singleton (p : List String) (a : String) :
    firstSeen (p ++ [a])
      = if a ∈ p then firstSeen p else firstSeen p ++ [a] := by
  induction p using firstSeen.induct with
  | case1 => simp [firstSeen]
  | case2 x tl ih =>
    have hxa : firstSeen ((x :: tl) ++ [a])
        = x :: firstSeen ((tl ++ [a]).filter (fun b => decide (b ≠ x))) := by
      rw [List.cons_append, firstSeen_cons]
    by_cases hax : a = x
    · subst hax
      have hone : List.filter (fun b => decide (b ≠ a)) [a] = [] := by simp
      rw [hxa, List.filter_append, hone, List.append_nil,
        if_pos (List.mem_cons_self a tl), firstSeen_cons]
    · have hone : List.filter (fun b => decide (b ≠ x)) [a] = [a] := by
        simp [hax]
      have hmem : (a ∈ List.filter (fun b => decide (b ≠ x)) tl) ↔ a ∈ tl := by
        simp [List.mem_filter, hax]
      rw [hxa, List.filter_append, hone, ih]
      by_cases ha : a ∈ tl
      · rw [if_pos (hmem.mpr ha), if_pos (List.mem_cons_of_mem x ha),
          firstSeen_cons]
      · rw [if_neg (fun h => ha (hmem.mp h)),
          if_neg (show ¬a ∈ x :: tl by simp [hax, ha]),
          firstSeen_cons, List.cons_append]

/-- `bump` on a tallied association list whose key is present: the one
entry's count rises by one. -/
theorem bump_map_mem (l : List String) (f : String → Nat) (a : String)
    (ha : a ∈ l) (hnd : l.Nodup) :
    bump (l.map (fun t => (t, f t))) a
      = l.map (fun t => (t, f t + if a = t then 1 else 0)) := by
  induction l with
  | nil => cases ha
  | cons x tl ih =>
    simp only [List.map_cons, bump]
    by_cases hx : x = a
    · subst hx
      rw [if_pos rfl]
      have htl : ∀ t ∈ tl, ((t, f t) : String × Nat)
          = (t, f t + if x = t then 1 else 0) := by
        intro t ht
        have hne : x ≠ t := by
          rintro rfl
          exact (List.nodup_cons.mp hnd).1 ht
        simp [hne]
      rw [List.map_congr_left htl]
      simp
    · rw [if_neg hx]
      have ha' : a ∈ tl := by
        rcases List.mem_cons.mp ha with h | h
        · exact absurd h.symm hx
        · exact h
      rw [ih ha' (List.nodup_cons.mp hnd).2]
      have hne : a ≠ x := fun h => hx h.symm
      simp [hne]

/-- `bump` on a tallied association list whose key is absent: a fresh
entry with count 1 is appended. -/
theorem bump_map_not_mem (l : List String) (f : String → Nat) (a : String)
    (ha : a ∉ l) :
    bump (l.map (fun t => (t, f t))) a
      = l.map (fun t => (t, f t)) ++ [(a, 1)] := by
  induction l with
  | nil => simp [bump]
  | cons x tl ih =>
    have hx : ¬x = a := by
      rintro rfl
      exact ha (List.mem_cons_self x tl)
    simp only [List.map_cons, bump, if_neg hx, List.cons_append]
    rw [ih (fun h => ha (List.mem_cons_of_mem x h))]

/-- One `bump` extends the spec-side tally by one occurrence. -/
theorem bump_tallySpec (p : List String) (a : String) :
    bump (tallySpec p) a = tallySpec (p ++ [a]) := by
  unfold tallySpec
  by_cases ha : a ∈ p
  · rw [firstSeen_append_singleton, if_pos ha]
    rw [bump_map_mem (firstSeen p) (fun t => p.count t) a
      ((mem_firstSeen a p).mpr ha) (nodup_firstSeen p)]
    apply List.map_congr_left
    intro t ht
    simp [List.count_append, List.count_cons]
  · rw [firstSeen_append_singleton, if_neg ha]
    rw [bump_map_not_mem _ _ _ (fun h => ha ((mem_firstSeen a p).mp h))]
    rw [List.map_append]
    congr 1
    · apply List.map_congr_left
      intro t ht
      have hta : ¬a = t := by
        rintro rfl
        exact ha ((mem_firstSeen a p).mp ht)
      simp [List.count_append, List.count_cons, hta]
    · have h0 : p.count a = 0 := List.count_eq_zero.mpr ha
      simp [List.count_append, List.count_cons, h0]

/-- Folding `bump` over a list of occurrences computes the spec-side
tally. -/
theorem foldl_bump_tallySpec (ms p : List String) :
    ms.foldl bump (tallySpec p) = tallySpec (p ++ ms) := by
  induction ms generalizing p with
  | nil => simp
  | cons a tl ih =>
    simp only [List.foldl_cons]
    rw [bump_tallySpec p a, ih (p ++ [a])]
    simp

/-- The nested fold of `extractHashtags` is a single fold over the
flattened, lowercased occurrence list. -/
theorem extract_fold_flat (comments : List Comment) (acc : List (String × Nat)) :
    comments.foldl
      (fun acc c => (scanTags c.content.data).foldl
        (fun m t => bump m (jsToLower t)) acc) acc
      = (allTagsLower comments).foldl bump acc := by
  induction comments generalizing acc with
  | nil => simp [allTagsLower]
  | cons c tl ih =>
    simp only [List.foldl_cons, allTagsLower, List.flatMap_cons]
    rw [List.foldl_append, List.foldl_map]
    exact ih _

/-- The source's `extractHashtags` coincides with the claim-side
pipeline `extractTrendingTagsSpec` on every comment list. -/
theorem extractHashtags_eq_spec (comments : List Comment) :
    extractHashtags comments = extractTrendingTagsSpec comments := by
  have h0 : tallySpec ([] : List String) = [] := by
    simp [tallySpec, firstSeen]
  unfold extractHashtags extractTrendingTagsSpec
  rw [extract_fold_flat, ← h0, foldl_bump_tallySpec, List.nil_append]

/-- Everything in `insertDesc x l` is `x` or from `l`. -/
theorem mem_insertDesc (x y : String × Nat) (l : List (String × Nat))
    (h : y ∈ insertDesc x l) : y = x ∨ y ∈ l := by
  induction l with
  | nil => simpa [insertDesc] using h
  | cons z tl ih =>
    simp only [insertDesc] at h
    by_cases hz : z.2 ≤ x.2
    · rw [if_pos hz] at h
      rcases List.mem_cons.mp h with rfl | h'
      · exact Or.inl rfl
      · exact Or.inr h'
    · rw [if_neg hz] at h
      rcases List.mem_cons.mp h with rfl | h'
      · exact Or.inr (List.mem_cons_self y tl)
      · rcases ih h' with h'' | h''
        · exact Or.inl h''
        · exact Or.inr (List.mem_cons_of_mem z h'')

/-- `insertDesc` preserves the descending-count ordering. -/
theorem pairwise_insertDesc (x : String × Nat) (l : List (String × Nat))
    (h : List.Pairwise (fun a b => b.2 ≤ a.2) l) :
    List.Pairwise (fun a b => b.2 ≤ a.2) (insertDesc x l) := by
  induction l with
  | nil => simp [insertDesc]
  | cons z tl ih =>
    rcases List.pairwise_cons.mp h with ⟨hz, htl⟩
    simp only [insertDesc]
    by_cases hzx : z.2 ≤ x.2
    · rw [if_pos hzx]
      refine List.Pairwise.cons ?_ h
      intro y hy
      rcases List.mem_cons.mp hy with rfl | hy'
      · exact hzx
      · exact le_trans (hz y hy') hzx
    · rw [if_neg hzx]
      refine List.Pairwise.cons ?_ (ih htl)
      intro y hy
      rcases mem_insertDesc x y tl hy with rfl | hy'
      · omega
      · exact hz y hy'

/-- The stable sort orders its output by count, descending. -/
theorem pairwise_sortByCountDesc (l : List (String × Nat)) :
    List.Pairwise (fun a b => b.2 ≤ a.2) (sortByCountDesc l) := by
  induction l with
  | nil => simp [sortByCountDesc]
  | cons x tl ih => exact pairwise_insertDesc x _ ih

/-- When no comment's content contains a hashtag, the flattened
occurrence list is empty. -/
theorem allTagsLower_nil (comments : List Comment)
    (h : ∀ c ∈ comments, scanTags c.content.data = []) :
    allTagsLower comments = [] := by
  induction comments with
  | nil => rfl
  | cons c tl ih =>
    simp only [allTagsLower, List.flatMap_cons, h c (List.mem_cons_self c tl),
      List.map_nil, List.nil_append]
    exact ih (fun x hx => h x (List.mem_cons_of_mem c hx))

/-- C5: `extractHashtags` equals the claim-side pipeline — lowercased
occurrences counted across all comments, distinct tags in first-seen
order, stable-sorted by count descending, truncated to four — its output
never exceeds four entries and is sorted by count descending, it is
empty when no comment carries a hashtag, and on the `#Design`, `#design`,
`#UI` example it returns `[("#design", 2), ("#ui", 1)]`. -/
theorem c5_extractTrendingTags (comments : List Comment) :
    extractHashtags comments = extractTrendingTagsSpec comments ∧
    (extractHashtags comments).length ≤ 4 ∧
    List.Pairwise (fun a b => b.2 ≤ a.2) (extractHashtags comments) ∧
    ((∀ c ∈ comments, scanTags c.content.data = []) →
      extractHashtags comments = []) ∧
    extractHashtags exampleComments = [("#design", 2), ("#ui", 1)] := by
  refine ⟨extractHashtags_eq_spec comments, ?_, ?_, ?_, by decide⟩
  · simp [extractHashtags, List.length_take]
  · show List.Pairwise _ ((sortByCountDesc _).take 4)
    exact List.Pairwise.sublist (List.take_sublist 4 _)
      (pairwise_sortByCountDesc _)
  · intro h
    rw [extractHashtags_eq_spec comments]
    unfold extractTrendingTagsSpec
    rw [allTagsLower_nil comments h]
    simp [tallySpec, firstSeen, sortByCountDesc]

/-- C5 witness: a comment list with no hashtags (the example's first
comment with plain content) yields the empty trending list. -/
theorem c5_extractTrendingTags_witness :
    extractHashtags [] = [] ∧
    (∀ c ∈ ([] : List Comment), scanTags c.content.data = []) :=
  ⟨((c5_extractTrendingTags []).2.2.2.1) (by simp), by simp⟩

end CommentFeed
